import Mathlib

/-!
Verification of the timeline-reconciliation and caption/overlay-compositing
core of the HackEmory backend.

The development shallowly embeds the relevant Python functions:

* `generate_audio_from_quiz_transcript` and `concatenate_quiz_audio_segments`
  from `backend_pipeline/audio_generation/elevenLabs_quiz.py`;
* `wrap_caption_text`, `get_peter_image`, `get_character_image` and the
  caption/overlay construction inside
  `create_quiz_video_with_audio_and_captions`
  (`backend_pipeline/video_assembly/ffMpeg_quiz.py`) and
  `create_video_with_audio_and_captions`
  (`backend_pipeline/video_assembly/ffMpeg.py`).

Modelling conventions:

* Seconds are rational numbers (`ℚ`); Python float literals such as `0.05`
  become the exact rationals `1/20` etc.
* External effects are abstracted by oracles passed as arguments: `probe`
  models one `ffprobe` duration query per file path (`none` = non-zero exit
  or empty stdout), `fExists` models `os.path.exists`, and `concatOk` models
  the exit status of the `ffmpeg` concat invocation.  Path normalisation
  (`os.path.abspath`) is the identity in the model, so the concatenated
  output file is probed under its given name.
* Fallible Python control flow (raised exceptions) becomes `Except String`.
* Python dicts produced by the pipeline always carry the keys the later
  stages read (`segment.get("emotion", "neutral")` etc. only fire their
  defaults for keys absent at dict construction), so descriptors and timing
  records are plain structures.
-/

namespace HackEmory

/- Batteries marks the `Rat` field operations `[irreducible]`, which blocks
`decide` on concrete rational computations; re-enable unfolding locally so
concrete runs of the models below can be checked by the kernel. -/
attribute [local semireducible] Rat.add Rat.mul Rat.inv Rat.sub

/-- Clip descriptor as built by `generate_audio_from_quiz_transcript`
(`elevenLabs_quiz.py`): the dict
`{index, file, caption, speaker, emotion, is_pause?, is_options?}`.
A key absent from the Python dict is read back through `.get(…, False)`,
so the two placeholder flags are total `Bool` fields defaulting to `false`. -/
structure AudioSegment where
  index : Nat
  file : Option String
  caption : String
  speaker : String
  emotion : String
  is_pause : Bool := false
  is_options : Bool := false
  deriving DecidableEq, Repr

/-- One reconciled timing record appended to `timings` in
`concatenate_quiz_audio_segments` (`elevenLabs_quiz.py`, lines 216–226).
`stop` renders the Python key `"end"` (a Lean keyword). -/
structure Timing where
  index : Nat
  start : ℚ
  stop : ℚ
  duration : ℚ
  caption : String
  speaker : String
  emotion : String
  is_pause : Bool
  is_options : Bool
  deriving DecidableEq, Repr

/-- The dictionary returned by `concatenate_quiz_audio_segments`:
`{audio_file, total_duration, segments}`. -/
structure Timeline where
  audio_file : String
  total_duration : ℚ
  segments : List Timing
  deriving DecidableEq, Repr

instance {ε α : Type} [DecidableEq ε] [DecidableEq α] :
    DecidableEq (Except ε α) := fun a b =>
  match a, b with
  | .ok x, .ok y =>
    if h : x = y then .isTrue (by rw [h]) else .isFalse (by simp [h])
  | .error x, .error y =>
    if h : x = y then .isTrue (by rw [h]) else .isFalse (by simp [h])
  | .ok _, .error _ => .isFalse (by simp)
  | .error _, .ok _ => .isFalse (by simp)

/-! ## Segment Synthesizer (`generate_audio_from_quiz_transcript`) -/

/-- One entry of `quiz_transcript_data["transcripts"]`.  `speaker` and
`emotion` are optional in the input JSON and are read with
`.get("speaker", "PETER")` / `.get("emotion", "neutral")`;
`is_options` with `.get("is_options", False)`. -/
structure TranscriptSegment where
  caption : String
  speaker : Option String := none
  emotion : Option String := none
  is_options : Bool := false
  deriving DecidableEq, Repr

/-- `f"quiz_segment_{idx:03d}.mp3"` zero-pads the index to three digits. -/
def pad3 (n : Nat) : String :=
  if n < 10 then "00" ++ toString n
  else if n < 100 then "0" ++ toString n
  else toString n

/-- `os.path.join(output_dir, f"quiz_segment_{idx:03d}.mp3")`. -/
def quizSegmentFile (output_dir : String) (idx : Nat) : String :=
  output_dir ++ "/quiz_segment_" ++ pad3 idx ++ ".mp3"

/-- The pause test of `elevenLabs_quiz.py` line 39:
`caption.startswith("[") and caption.endswith("]")`.  For the
single-character prefix/suffix used there this is exactly: the first
character is `[` and the last character is `]` (false on the empty
string). -/
def isPauseCaption (caption : String) : Bool :=
  caption.data.head? == some '[' && caption.data.getLast? == some ']'

/-- The body of the loop in `generate_audio_from_quiz_transcript`
(lines 32–90) for one transcript entry.  Returns the appended descriptor
together with `true` iff the external text-to-speech call was made (and a
segment audio file written).  The pause test runs first, then the
`is_options` test, then synthesis. -/
def synthesizeOne (output_dir : String) (idx : Nat) (seg : TranscriptSegment) :
    AudioSegment × Bool :=
  let speaker := seg.speaker.getD "PETER"
  let emotion := seg.emotion.getD "neutral"
  if isPauseCaption seg.caption then
    ({ index := idx, file := none, caption := seg.caption, speaker := speaker,
       emotion := emotion, is_pause := true, is_options := false }, false)
  else if seg.is_options then
    ({ index := idx, file := none, caption := seg.caption, speaker := speaker,
       emotion := emotion, is_pause := false, is_options := true }, false)
  else
    ({ index := idx, file := some (quizSegmentFile output_dir idx),
       caption := seg.caption, speaker := speaker, emotion := emotion,
       is_pause := false, is_options := false }, true)

/-- `generate_audio_from_quiz_transcript`: map `synthesizeOne` over the
enumerated transcript list, collecting the descriptors. -/
def generate_audio_from_quiz_transcript (output_dir : String)
    (transcripts : List TranscriptSegment) : List AudioSegment :=
  (transcripts.enum.map fun p => (synthesizeOne output_dir p.1 p.2).1)

/-! ## Timeline Builder (`concatenate_quiz_audio_segments`) -/

/-- The per-segment duration computation of `concatenate_quiz_audio_segments`
(lines 183–211): pause placeholders get `pause_duration`, options
placeholders get `options_duration`, real clips get their probed raw
duration plus the fixed `0.05` s concatenation buffer; a falsy/missing file
or a failed probe yields `none` (the Python `continue`, dropping the
interval with a warning). -/
def segmentDuration (probe : String → Option ℚ) (fExists : String → Bool)
    (pause_duration options_duration : ℚ) (seg : AudioSegment) : Option ℚ :=
  if seg.is_pause then some pause_duration
  else if seg.is_options then some options_duration
  else
    match seg.file with
    | some f =>
        if f ≠ "" ∧ fExists f then
          match probe f with
          | some raw => some (raw + 1/20)
          | none => none
        else none
    | none => none

/-- The accumulation loop of lines 180–228: starting from `current_time = t`,
emit one `Timing` per segment whose duration is measurable and thread the
running clock.  Returns the timing list and the final `current_time`. -/
def buildTimings (probe : String → Option ℚ) (fExists : String → Bool)
    (pause_duration options_duration : ℚ) :
    List AudioSegment → ℚ → List Timing × ℚ
  | [], t => ([], t)
  | seg :: rest, t =>
    match segmentDuration probe fExists pause_duration options_duration seg with
    | none => buildTimings probe fExists pause_duration options_duration rest t
    | some d =>
      let p := buildTimings probe fExists pause_duration options_duration rest (t + d)
      ({ index := seg.index, start := t, stop := t + d, duration := d,
         caption := seg.caption, speaker := seg.speaker, emotion := seg.emotion,
         is_pause := seg.is_pause, is_options := seg.is_options } :: p.1, p.2)

/-- The in-place rescale of lines 249–252:
`timing["start"] *= k; timing["end"] *= k; timing["duration"] *= k`. -/
def scaleTiming (k : ℚ) (x : Timing) : Timing :=
  { x with start := x.start * k, stop := x.stop * k, duration := x.duration * k }

/-- The drift reconciliation of lines 230–254.  `probeOut` is the `ffprobe`
result on the concatenated output file (`none` when the probe fails or
prints nothing, in which case the block is skipped).  When the probe
succeeds and `|actual − computed| > 0.5`, every timing is rescaled by
`actual / computed` and the total becomes `actual`; a zero computed total
makes the Python `actual_duration / current_time` raise
`ZeroDivisionError`. -/
def reconcileTimings (probeOut : Option ℚ) (timings : List Timing)
    (computed : ℚ) : Except String (List Timing × ℚ) :=
  match probeOut with
  | none => .ok (timings, computed)
  | some actual =>
    if |actual - computed| > 1/2 then
      if computed = 0 then .error "ZeroDivisionError: float division by zero"
      else .ok (timings.map (scaleTiming (actual / computed)), actual)
    else .ok (timings, computed)

/-- `concatenate_quiz_audio_segments` (lines 94–270), with the silence-file
generation and cleanup side effects elided (they do not touch the returned
value).  An empty segment list makes line 114
(`audio_segments[0]["file"]`) raise `IndexError`; a failing `ffmpeg`
concat (modelled by `concatOk = false`) raises at line 177. -/
def concatenate_quiz_audio_segments (probe : String → Option ℚ)
    (fExists : String → Bool) (concatOk : Bool)
    (audio_segments : List AudioSegment) (output_file : String)
    (pause_duration options_duration : ℚ) : Except String Timeline :=
  if audio_segments.isEmpty then .error "IndexError: list index out of range"
  else if ¬ concatOk then .error "FFmpeg concatenation failed"
  else
    let p := buildTimings probe fExists pause_duration options_duration
      audio_segments 0
    match reconcileTimings (probe output_file) p.1 p.2 with
    | .error e => .error e
    | .ok q => .ok { audio_file := output_file, total_duration := q.2,
                     segments := q.1 }

/-! ## Caption text wrapping (`wrap_caption_text` → CPython `textwrap.wrap`)

`wrap_caption_text` calls `textwrap.wrap(text, width=max_chars)` with all
`TextWrapper` options at their defaults (`expand_tabs`,
`replace_whitespace`, `drop_whitespace`, `break_long_words`,
`break_on_hyphens` true; `max_lines=None`; empty indents).  The model
below mirrors CPython's `_munge_whitespace`, `_split` (the full
`wordsep_re`, including its hyphenated-word and em-dash branches) and
`_wrap_chunks` (including the `break_on_hyphens` refinement of
`_handle_long_word`) for ASCII input: the regex character classes `\w`
and `[^\d\W]` are taken at their ASCII denotations. -/

/-- The ASCII whitespace characters of `textwrap._whitespace`. -/
def isPyWs (c : Char) : Bool :=
  c = ' ' || c = '\t' || c = '\n' || c = '\x0b' || c = '\x0c' || c = '\r'

/-- `str.expandtabs()` with the default tab size 8: a tab becomes spaces up
to the next multiple-of-8 column; newline and carriage return reset the
column.  `col` tracks the current column modulo 8. -/
def expandTabsAux : List Char → Nat → List Char
  | [], _ => []
  | c :: cs, col =>
    if c = '\t' then
      List.replicate (8 - col % 8) ' ' ++ expandTabsAux cs 0
    else if c = '\n' ∨ c = '\r' then c :: expandTabsAux cs 0
    else c :: expandTabsAux cs ((col + 1) % 8)

/-- `TextWrapper._munge_whitespace`: expand tabs, then replace each
whitespace character by a single space. -/
def mungeWhitespace (text : List Char) : List Char :=
  (expandTabsAux text 0).map (fun c => if isPyWs c then ' ' else c)

/-- `[^\d\W]` of `wordsep_re` at its ASCII denotation: an ASCII letter or
underscore (a word character that is not a digit). -/
def isTextwrapLetter (c : Char) : Bool :=
  (decide ('a' ≤ c) && decide (c ≤ 'z')) ||
  (decide ('A' ≤ c) && decide (c ≤ 'Z')) || c == '_'

/-- `\w` at its ASCII denotation. -/
def isWordChar (c : Char) : Bool :=
  isTextwrapLetter c || (decide ('0' ≤ c) && decide (c ≤ '9'))

/-- `word_punct = [\w!"\'&.,?]` of `wordsep_re`. -/
def isWordPunct (c : Char) : Bool :=
  isWordChar c || c == '!' || c == '"' || c == '\'' || c == '&' ||
    c == '.' || c == ',' || c == '?'

/-- The em-dash lookahead `-{2,}\w` of `wordsep_re`: the maximal hyphen
run ahead has length at least two and is followed by a word character
(backtracking the greedy `-{2,}` cannot help, since any shorter run is
followed by another hyphen). -/
def emDashAhead (rest : List Char) : Bool :=
  let k := (rest.takeWhile (fun x => x == '-')).length
  decide (2 ≤ k) &&
    (match rest.drop k with
     | x :: _ => isWordChar x
     | [] => false)

/-- The hyphenated-word lookahead `(?=%(lt)s-?%(lt)s)`: a letter, an
optional hyphen, then a letter. -/
def letterHyphenLetterAhead (rest : List Char) : Bool :=
  match rest with
  | x :: y :: t =>
      isTextwrapLetter x &&
        (isTextwrapLetter y ||
          (y == '-' &&
            (match t with
             | z :: _ => isTextwrapLetter z
             | [] => false)))
  | _ => false

/-- The hyphenated-word stop of `wordsep_re`
(`-(?:(?<=%(lt)s{2}-)|(?<=%(lt)s-%(lt)s-))(?=%(lt)s-?%(lt)s)`), tested at
a boundary whose preceding characters, in reverse, are `rev` (this
lookbehind may reach into earlier chunks) and whose remaining text is
`rest`: the character just consumed is a hyphen preceded by two letters,
or by letter-hyphen-letter, and a letter (optionally hyphenated) letter
follows. -/
def hyphenStop (rev rest : List Char) : Bool :=
  ((match rev with
    | '-' :: b :: a :: _ => isTextwrapLetter b && isTextwrapLetter a
    | _ => false) ||
   (match rev with
    | '-' :: b :: '-' :: a :: _ => isTextwrapLetter b && isTextwrapLetter a
    | _ => false)) &&
    letterHyphenLetterAhead rest

/-- All stops of the word branch `%(nws)s+?(?:…)` of `wordsep_re` at a
boundary: the hyphenated-word stop (which consumed the hyphen, so it
needs at least two consumed characters for the non-empty `%(nws)s+?`),
the end-of-word stop `(?=%(ws)s|\Z)`, or the em-dash stop
`(?<=%(wp)s)(?=-{2,}\w)`. -/
def wordStop (rev rest : List Char) (consumed : Nat) : Bool :=
  (decide (2 ≤ consumed) && hyphenStop rev rest) ||
  (match rest with
   | [] => true
   | x :: _ => x == ' ') ||
  ((match rev with
    | p :: _ => isWordPunct p
    | [] => false) && emDashAhead rest)

/-- Length of the word chunk starting here: consume non-whitespace
characters one at a time and stop at the earliest boundary where
`wordStop` holds (the non-greedy `%(nws)s+?`); the end-of-word stop
guarantees a stop at the next space or at the end. -/
def fragLen (rev : List Char) : List Char → Nat → Nat
  | [], _ => 0
  | c :: cs, n =>
      if wordStop (c :: rev) cs (n + 1) then 1
      else 1 + fragLen (c :: rev) cs (n + 1)

/-- One chunk per step of `wordsep_re.split` over munged text (every
position starts a match, so the split pieces are exactly the matches, and
no empty piece survives the `if c` filter): a maximal whitespace run, an
em-dash run `(?<=%(wp)s)-{2,}(?=\w)`, or a word chunk of `fragLen`
characters.  `rev` is the already-consumed prefix, reversed, for the
lookbehinds; the step counter is initialised to the text length, an upper
bound on the number of chunks since each consumes at least one
character. -/
def splitChunksAux : Nat → List Char → List Char → List (List Char)
  | 0, _, _ => []
  | _ + 1, _, [] => []
  | fuel + 1, rev, c :: cs =>
    if c == ' ' then
      ((c :: cs).takeWhile (fun x => x == ' ')) ::
        splitChunksAux fuel
          (((c :: cs).takeWhile (fun x => x == ' ')).reverse ++ rev)
          ((c :: cs).dropWhile (fun x => x == ' '))
    else if (match rev with
        | p :: _ => isWordPunct p
        | [] => false) && emDashAhead (c :: cs) then
      ((c :: cs).take (((c :: cs).takeWhile (fun x => x == '-')).length)) ::
        splitChunksAux fuel
          (((c :: cs).take
            (((c :: cs).takeWhile (fun x => x == '-')).length)).reverse ++ rev)
          ((c :: cs).drop (((c :: cs).takeWhile (fun x => x == '-')).length))
    else
      ((c :: cs).take (fragLen rev (c :: cs) 0)) ::
        splitChunksAux fuel
          (((c :: cs).take (fragLen rev (c :: cs) 0)).reverse ++ rev)
          ((c :: cs).drop (fragLen rev (c :: cs) 0))

/-- `TextWrapper._split` on munged text: the `wordsep_re` chunks. -/
def toChunks (text : List Char) : List (List Char) :=
  splitChunksAux text.length [] text

/-- A chunk is whitespace iff `chunk.strip() == ''`. -/
def isWsChunk (c : List Char) : Bool := c.all (· == ' ')

/-- `if drop_whitespace and cur_line and cur_line[-1].strip() == '':
del cur_line[-1]`. -/
def dropTrailingWs (cur : List (List Char)) : List (List Char) :=
  match cur.getLast? with
  | some last => if isWsChunk last then cur.dropLast else cur
  | none => cur

/-- End-of-line bookkeeping of `_wrap_chunks`: drop a trailing whitespace
chunk, then append `''.join(cur_line)` as a line iff `cur_line` is still
non-empty. -/
def emitLine (acc : List (List Char)) (cur : List (List Char)) :
    List (List Char) :=
  let cur2 := dropTrailingWs cur
  if cur2.isEmpty then acc else acc ++ [cur2.flatten]

/-- `chunk.rfind('-', 0, spaceLeft)` of `_handle_long_word`, as the index
of the last hyphen of the first `spaceLeft` characters. -/
def rfindHyphen : List Char → Option Nat
  | [] => none
  | c :: cs =>
    match rfindHyphen cs with
    | some i => some (i + 1)
    | none => if c == '-' then some 0 else none

/-- How many characters of an over-long chunk go onto the current line
(`_handle_long_word` with `break_long_words` and `break_on_hyphens` both
true): break after the last hyphen that fits, provided some non-hyphen
precedes it; otherwise take the whole available space. -/
def longWordEnd (c : List Char) (spaceLeft : Nat) : Nat :=
  match rfindHyphen (c.take spaceLeft) with
  | some h =>
      if decide (0 < h) && (c.take h).any (fun x => x != '-') then h + 1
      else spaceLeft
  | none => spaceLeft

/-- The `_wrap_chunks` loop, one chunk-step at a time, with an explicit step
counter.  State: remaining chunks, emitted lines `acc`, current line `cur`
with its length `curLen`.  The four branches are, in order: the
start-of-line leading-whitespace drop (only once at least one line was
emitted), the greedy fill, the break-long-word handling (`space_left` is
`1` when `width < 1`, else `width - cur_len`, narrowed by `longWordEnd`),
and closing a full line.  The counter is initialised to the loop's
termination measure, so it never reaches zero on the recursive path. -/
def wrapAux (width : Nat) : Nat → List (List Char) → List (List Char) →
    List (List Char) → Nat → List (List Char)
  | 0, _, acc, cur, _ => emitLine acc cur
  | _ + 1, [], acc, cur, _ => emitLine acc cur
  | fuel + 1, c :: cs, acc, cur, curLen =>
    if cur.isEmpty && !acc.isEmpty && isWsChunk c then
      wrapAux width fuel cs acc cur curLen
    else if curLen + c.length ≤ width then
      wrapAux width fuel cs acc (cur ++ [c]) (curLen + c.length)
    else if width < c.length then
      let t := longWordEnd c (if width < 1 then 1 else width - curLen)
      wrapAux width fuel (c.drop t :: cs) (emitLine acc (cur ++ [c.take t])) [] 0
    else
      wrapAux width fuel (c :: cs) (emitLine acc cur) [] 0

/-- Termination measure of the `_wrap_chunks` loop: every branch of
`wrapAux` strictly decreases
`2·(total chunk length) + (number of chunks) + (current line non-empty)`. -/
def wrapMeasure (chunks : List (List Char)) : Nat :=
  2 * (chunks.map List.length).sum + chunks.length + 1

/-- `textwrap.wrap(text, width)` at default options (see section header). -/
def textwrapWrap (width : Nat) (text : List Char) : List (List Char) :=
  let chunks := toChunks (mungeWhitespace text)
  wrapAux width (wrapMeasure chunks) chunks [] [] 0

/-- `"\n".join(wrapped_lines)`. -/
def joinWithNewline : List (List Char) → List Char
  | [] => []
  | [l] => l
  | l :: ls => l ++ '\n' :: joinWithNewline ls

/-- `wrap_caption_text(text, max_chars=32)` (`ffMpeg.py` / `ffMpeg_quiz.py`
lines 6–9): wrap, then join with newlines, returning the input text
unchanged when `textwrap.wrap` produced no lines. -/
def wrap_caption_text (text : String) (max_chars : Nat := 32) : String :=
  let ls := textwrapWrap max_chars text.data
  if ls.isEmpty then text else String.mk (joinWithNewline ls)

/-! ## Caption/Overlay Compositor (`ffMpeg_quiz.py`, `ffMpeg.py`) -/

/-- The escaping chain of `ffMpeg_quiz.py` lines 129–134 (a backslash is
doubled, a single quote becomes `'\\\''`, a colon is backslash-escaped).
The three sequential `str.replace` passes equal one character-wise pass
because no pass introduces a character rewritten by a later pass. -/
def escapeCaptionChar (c : Char) : List Char :=
  if c = '\\' then ['\\', '\\']
  else if c = '\'' then ['\'', '\\', '\\', '\\', '\'', '\'']
  else if c = ':' then ['\\', ':']
  else [c]

def escapeCaption (s : String) : String :=
  String.mk (s.data.map escapeCaptionChar).flatten

/-- One `drawtext` caption filter of the quiz compositor, as a record of
the parameters interpolated into the filter string (the `x`/`y` position
expressions coincide for both styles and are omitted). -/
structure CaptionSpec where
  text : String
  fontsize : Nat
  fontcolor : String
  boxcolor : String
  enable_start : ℚ
  enable_stop : ℚ
  deriving DecidableEq, Repr

/-- The caption-loop body of `create_quiz_video_with_audio_and_captions`
(`ffMpeg_quiz.py` lines 119–165) for one timing: pause indicators are
skipped (`continue`); every other timing yields one `drawtext` filter whose
`enable` window is `between(t, start, end)` of that timing, styled by the
`is_options` flag. -/
def captionSpecFor (t : Timing) : Option CaptionSpec :=
  if t.is_pause then none
  else
    let txt := escapeCaption (wrap_caption_text t.caption)
    if t.is_options then
      some { text := txt, fontsize := 48, fontcolor := "white",
             boxcolor := "0x0000AA80", enable_start := t.start,
             enable_stop := t.stop }
    else
      some { text := txt, fontsize := 54, fontcolor := "white",
             boxcolor := "0x00000080", enable_start := t.start,
             enable_stop := t.stop }

/-- The full quiz caption filter list (`caption_filters`). -/
def buildQuizCaptionSpecs (caption_timings : List Timing) : List CaptionSpec :=
  caption_timings.filterMap captionSpecFor

/-- `get_peter_image` (`ffMpeg_quiz.py` lines 12–28); a falsy emotion is
the empty string. -/
def get_peter_image (emotion : String) : String :=
  if emotion = "neutral" ∨ emotion = "" then "assets/characters/peter.png"
  else "assets/characters/peter_" ++ emotion ++ ".png"

/-- `speaker.lower()`: character-wise lowercasing (the speakers here are
ASCII names). -/
def lowerString (s : String) : String := String.mk (s.data.map Char.toLower)

/-- `get_character_image` (`ffMpeg.py` lines 12–30). -/
def get_character_image (speaker emotion : String) : String :=
  if emotion = "neutral" ∨ emotion = "" then
    "assets/characters/" ++ lowerString speaker ++ ".png"
  else
    "assets/characters/" ++ lowerString speaker ++ "_" ++ emotion ++ ".png"

/-- The shared exact-else-neutral-else-none asset lookup
(`ffMpeg_quiz.py` lines 63–75 / `ffMpeg.py` lines 70–82). -/
def resolveCharacterAsset (fExists : String → Bool) (exact fallback : String) :
    Option String :=
  if fExists exact then some exact
  else if fExists fallback then some fallback
  else none

/-- Quiz image resolution for one emotion key. -/
def resolvePeterImage (fExists : String → Bool) (emotion : String) :
    Option String :=
  resolveCharacterAsset fExists (get_peter_image emotion)
    (get_peter_image "neutral")

/-- Dialogue image resolution for one (speaker, emotion) key
(`ffMpeg.py` lines 70–82). -/
def resolveCharacterImage (fExists : String → Bool)
    (speaker emotion : String) : Option String :=
  resolveCharacterAsset fExists (get_character_image speaker emotion)
    (get_character_image speaker "neutral")

/-- First-occurrence deduplication, mirroring insertion order of a Python
dict filled behind an `if key not in dict` guard. -/
def uniqueKeys : List String → List String
  | [] => []
  | e :: es => e :: (uniqueKeys es).filter (fun x => x ≠ e)

/-- The emotion keys of the `peter_images` dict (`ffMpeg_quiz.py` lines
59–75): one entry per distinct `timing.get("emotion", "neutral")`, in
first-appearance order. -/
def quizEmotionKeys (caption_timings : List Timing) : List String :=
  uniqueKeys (caption_timings.map (·.emotion))

/-- The `peter_images` dict: each distinct emotion mapped to its resolved
image (`None` when neither the exact nor the neutral asset exists). -/
def peterImagesDict (fExists : String → Bool)
    (caption_timings : List Timing) : List (String × Option String) :=
  (quizEmotionKeys caption_timings).map
    (fun e => (e, resolvePeterImage fExists e))

/-- The matching-timings filter of `ffMpeg_quiz.py` lines 111–114: same
emotion and not a pause (options timings are *not* filtered out). -/
def peterMatching (caption_timings : List Timing) (emotion : String) :
    List Timing :=
  caption_timings.filter (fun t => t.emotion == emotion && !t.is_pause)

/-- `create_enable_expr` (`ffMpeg_quiz.py` lines 102–106), kept as the list
of `(start, end)` pairs of its `between(t, start, end)` terms (the empty
list renders to the never-true expression `"0"`). -/
def peterEnable (caption_timings : List Timing) (emotion : String) :
    List (ℚ × ℚ) :=
  (peterMatching caption_timings emotion).map (fun t => (t.start, t.stop))

/-- Truth value at time `x` of a rendered enable expression: `ffmpeg`'s
`between(t,a,b)` is `1` iff `a ≤ t ≤ b`, and the `"+".join` of the terms is
non-zero iff some term is. -/
def evalEnable (ws : List (ℚ × ℚ)) (x : ℚ) : Bool :=
  ws.any (fun p => decide (p.1 ≤ x ∧ x ≤ p.2))

/-- One emitted character overlay of the quiz compositor: an image input
plus an `overlay=…:enable='…'` filter (`ffMpeg_quiz.py` lines 182–203,
223–226); emitted only for emotions whose dict entry is a real path. -/
structure OverlayEntry where
  emotion : String
  image : String
  enable : List (ℚ × ℚ)
  deriving DecidableEq, Repr

/-- The overlay filters emitted by the quiz compositor, in dict order. -/
def quizOverlayEntries (fExists : String → Bool)
    (caption_timings : List Timing) : List OverlayEntry :=
  (peterImagesDict fExists caption_timings).filterMap
    (fun p => p.2.map (fun path =>
      { emotion := p.1, image := path,
        enable := peterEnable caption_timings p.1 }))

/-- The `-loop 1 -i <image>` inputs added to the `ffmpeg` command, in dict
order (`ffMpeg_quiz.py` lines 223–226). -/
def quizImageInputs (fExists : String → Bool)
    (caption_timings : List Timing) : List String :=
  (peterImagesDict fExists caption_timings).filterMap (fun p => p.2)

/-- Modelled from the spec's words, for comparison with the code's overlay
enable windows (claim C6): a boolean-time predicate "true exactly on the
union of the [start,end) intervals whose speaker and emotion match that
key and which are not placeholder intervals (neither pause nor options)". -/
def specOverlayWindow (speaker emotion : String) (timings : List Timing)
    (x : ℚ) : Prop :=
  ∃ t ∈ timings, t.speaker = speaker ∧ t.emotion = emotion ∧
    t.is_pause = false ∧ t.is_options = false ∧ t.start ≤ x ∧ x < t.stop

instance (speaker emotion : String) (timings : List Timing) (x : ℚ) :
    Decidable (specOverlayWindow speaker emotion timings x) := by
  unfold specOverlayWindow; infer_instance

/-! ## Structural lemmas about the Timeline Builder -/

/-- The first timing emitted from clock `t` starts at `t`. -/
theorem buildTimings_head_start (probe : String → Option ℚ)
    (fExists : String → Bool) (pd od : ℚ) :
    ∀ (segs : List AudioSegment) (t : ℚ) (x : Timing),
      (buildTimings probe fExists pd od segs t).1.head? = some x →
      x.start = t := by
  intro segs
  induction segs with
  | nil => intro t x h; simp [buildTimings] at h
  | cons seg rest ih =>
    intro t x h
    rw [buildTimings] at h
    cases hd : segmentDuration probe fExists pd od seg with
    | none => rw [hd] at h; exact ih t x h
    | some d =>
      rw [hd] at h
      simp only [List.head?_cons, Option.some.injEq] at h
      rw [← h]

/-- Every timing satisfies `end = start + duration`, and adjacent timings
are contiguous: the accumulated list from clock `t` is a `Chain'` for
`a.stop = b.start`. -/
theorem buildTimings_chain (probe : String → Option ℚ)
    (fExists : String → Bool) (pd od : ℚ) :
    ∀ (segs : List AudioSegment) (t : ℚ),
      List.Chain' (fun a b => a.stop = b.start)
        (buildTimings probe fExists pd od segs t).1 := by
  intro segs
  induction segs with
  | nil => intro t; simp [buildTimings]
  | cons seg rest ih =>
    intro t
    rw [buildTimings]
    cases hd : segmentDuration probe fExists pd od seg with
    | none => exact ih t
    | some d =>
      refine List.chain'_cons'.mpr ⟨?_, ih (t + d)⟩
      intro y hy
      exact (buildTimings_head_start probe fExists pd od rest (t + d) y hy).symm

/-- The final clock equals the initial clock plus the sum of the emitted
durations. -/
theorem buildTimings_total (probe : String → Option ℚ)
    (fExists : String → Bool) (pd od : ℚ) :
    ∀ (segs : List AudioSegment) (t : ℚ),
      (buildTimings probe fExists pd od segs t).2 =
        t + (((buildTimings probe fExists pd od segs t).1.map
          Timing.duration).sum) := by
  intro segs
  induction segs with
  | nil => intro t; simp [buildTimings]
  | cons seg rest ih =>
    intro t
    rw [buildTimings]
    cases hd : segmentDuration probe fExists pd od seg with
    | none => exact ih t
    | some d =>
      simp only [List.map_cons, List.sum_cons]
      rw [ih (t + d)]
      ring

/-- Every emitted duration comes from `segmentDuration` of some input
segment. -/
theorem buildTimings_duration_mem (probe : String → Option ℚ)
    (fExists : String → Bool) (pd od : ℚ) :
    ∀ (segs : List AudioSegment) (t : ℚ) (x : Timing),
      x ∈ (buildTimings probe fExists pd od segs t).1 →
      ∃ seg ∈ segs, segmentDuration probe fExists pd od seg =
        some x.duration := by
  intro segs
  induction segs with
  | nil => intro t x h; simp [buildTimings] at h
  | cons seg rest ih =>
    intro t x h
    rw [buildTimings] at h
    cases hd : segmentDuration probe fExists pd od seg with
    | none =>
      rw [hd] at h
      obtain ⟨s, hs, hval⟩ := ih t x h
      exact ⟨s, List.mem_cons_of_mem _ hs, hval⟩
    | some d =>
      rw [hd] at h
      rcases List.mem_cons.mp h with h | h
      · exact ⟨seg, List.mem_cons_self _ _, by rw [hd, h]⟩
      · obtain ⟨s, hs, hval⟩ := ih (t + d) x h
        exact ⟨s, List.mem_cons_of_mem _ hs, hval⟩

/-- Case analysis of a successful reconciliation: either the timings pass
through unchanged, or the probe succeeded, the computed total was non-zero
and everything was rescaled. -/
theorem reconcileTimings_ok_cases (probeOut : Option ℚ) (ts : List Timing)
    (computed : ℚ) (q : List Timing × ℚ)
    (h : reconcileTimings probeOut ts computed = .ok q) :
    q = (ts, computed) ∨
    (∃ actual, probeOut = some actual ∧ |actual - computed| > 1/2 ∧
      computed ≠ 0 ∧
      q = (ts.map (scaleTiming (actual / computed)), actual)) := by
  cases probeOut with
  | none =>
    left
    simp only [reconcileTimings, Except.ok.injEq] at h
    exact h.symm
  | some actual =>
    simp only [reconcileTimings] at h
    split at h
    next hgt =>
      split at h
      · exact absurd h (by simp)
      next hnz =>
        right
        refine ⟨actual, rfl, by simpa using hgt, hnz, ?_⟩
        simpa using h.symm
    next hle =>
      left
      simpa using h.symm

/-- Shape of any successful run of `concatenate_quiz_audio_segments`: the
returned segments are the accumulated timings, either as computed or
uniformly rescaled, with the matching total. -/
theorem concatenate_ok_cases (probe : String → Option ℚ)
    (fExists : String → Bool) (concatOk : Bool)
    (segs : List AudioSegment) (out : String) (pd od : ℚ) (tl : Timeline)
    (h : concatenate_quiz_audio_segments probe fExists concatOk segs out pd od
      = .ok tl) :
    (tl.segments = (buildTimings probe fExists pd od segs 0).1 ∧
      tl.total_duration = (buildTimings probe fExists pd od segs 0).2) ∨
    (∃ actual, probe out = some actual ∧
      (buildTimings probe fExists pd od segs 0).2 ≠ 0 ∧
      tl.segments = (buildTimings probe fExists pd od segs 0).1.map
        (scaleTiming (actual / (buildTimings probe fExists pd od segs 0).2)) ∧
      tl.total_duration = actual) := by
  unfold concatenate_quiz_audio_segments at h
  split at h
  · exact absurd h (by simp)
  split at h
  · exact absurd h (by simp)
  simp only at h
  cases hr : reconcileTimings (probe out)
      (buildTimings probe fExists pd od segs 0).1
      (buildTimings probe fExists pd od segs 0).2 with
  | error e => rw [hr] at h; exact absurd h (by simp)
  | ok q =>
    rw [hr] at h
    simp only [Except.ok.injEq] at h
    rcases reconcileTimings_ok_cases _ _ _ _ hr with hq | ⟨actual, hpa, -, hnz, hq⟩
    · left
      rw [← h, hq]
      exact ⟨rfl, rfl⟩
    · right
      refine ⟨actual, hpa, hnz, ?_, ?_⟩ <;> rw [← h, hq]

/-! ## Claim C1 -/

/-- C1: every reconciled `Timeline` produced by
`concatenate_quiz_audio_segments` has contiguous intervals in sequence
order: the first emitted interval starts at `0`, and
`interval[i].end = interval[i+1].start` for every adjacent pair, in both
the unscaled and the drift-rescaled branch. -/
theorem timeline_contiguous (probe : String → Option ℚ)
    (fExists : String → Bool) (concatOk : Bool)
    (segs : List AudioSegment) (out : String) (pd od : ℚ) (tl : Timeline)
    (h : concatenate_quiz_audio_segments probe fExists concatOk segs out pd od
      = .ok tl) :
    (∀ x ∈ tl.segments.head?, x.start = 0) ∧
      List.Chain' (fun a b => a.stop = b.start) tl.segments := by
  rcases concatenate_ok_cases probe fExists concatOk segs out pd od tl h with
    ⟨hseg, -⟩ | ⟨actual, -, -, hseg, -⟩
  · rw [hseg]
    refine ⟨?_, buildTimings_chain probe fExists pd od segs 0⟩
    intro x hx
    exact buildTimings_head_start probe fExists pd od segs 0 x
      (by simpa using hx)
  · rw [hseg]
    constructor
    · intro x hx
      cases hbt : (buildTimings probe fExists pd od segs 0).1 with
      | nil => rw [hbt] at hx; simp at hx
      | cons y ys =>
        rw [hbt] at hx
        simp only [List.map_cons, List.head?_cons, Option.mem_def,
          Option.some.injEq] at hx
        have h0 := buildTimings_head_start probe fExists pd od segs 0 y
          (by rw [hbt]; rfl)
        rw [← hx]
        simp [scaleTiming, h0]
    · rw [List.chain'_map]
      refine List.Chain'.imp ?_ (buildTimings_chain probe fExists pd od segs 0)
      intro a b hab
      simp [scaleTiming, hab]

/-- Concrete run discharging `timeline_contiguous`: one real clip probed at
`1.0` s (interval `[0, 1.05)`), drift `0.05 ≤ 0.5`, so the unscaled
timeline is returned. -/
theorem timeline_contiguous_witness :
    (∀ x ∈ (Timeline.mk "out.mp3" (21/20)
        [{ index := 0, start := 0, stop := 21/20, duration := 21/20,
           caption := "hi", speaker := "PETER", emotion := "neutral",
           is_pause := false, is_options := false }]).segments.head?,
        x.start = 0) ∧
      List.Chain' (fun a b => a.stop = b.start)
        (Timeline.mk "out.mp3" (21/20)
          [{ index := 0, start := 0, stop := 21/20, duration := 21/20,
             caption := "hi", speaker := "PETER", emotion := "neutral",
             is_pause := false, is_options := false }]).segments :=
  timeline_contiguous
    (fun f => if f = "s0.mp3" then some 1 else
      if f = "out.mp3" then some 1 else none)
    (fun _ => true) true
    [{ index := 0, file := some "s0.mp3", caption := "hi",
       speaker := "PETER", emotion := "neutral" }]
    "out.mp3" 2 5 _ (by decide)

/-! ## Claim C2 -/

/-- C2: for every reconciled `Timeline` produced by
`concatenate_quiz_audio_segments`, the sum of the interval durations equals
the returned `total_duration` exactly, in both the unscaled and the
rescaled branch. -/
theorem timeline_duration_additivity (probe : String → Option ℚ)
    (fExists : String → Bool) (concatOk : Bool)
    (segs : List AudioSegment) (out : String) (pd od : ℚ) (tl : Timeline)
    (h : concatenate_quiz_audio_segments probe fExists concatOk segs out pd od
      = .ok tl) :
    (tl.segments.map Timing.duration).sum = tl.total_duration := by
  rcases concatenate_ok_cases probe fExists concatOk segs out pd od tl h with
    ⟨hseg, htot⟩ | ⟨actual, -, hnz, hseg, htot⟩
  · rw [hseg, htot, buildTimings_total probe fExists pd od segs 0, zero_add]
  · rw [hseg, htot]
    have hsum : ((buildTimings probe fExists pd od segs 0).1.map
        Timing.duration).sum = (buildTimings probe fExists pd od segs 0).2 := by
      rw [buildTimings_total probe fExists pd od segs 0, zero_add]
    rw [List.map_map]
    have hcomp : (Timing.duration ∘ scaleTiming
        (actual / (buildTimings probe fExists pd od segs 0).2)) =
        fun x => x.duration * (actual / (buildTimings probe fExists pd od segs 0).2) := by
      funext x
      simp [scaleTiming]
    rw [hcomp, List.sum_map_mul_right, hsum, mul_comm,
      div_mul_cancel₀ _ hnz]

/-- Concrete run discharging `timeline_duration_additivity`, exercising the
rescaled branch: one pause placeholder of `10` s, concatenated file probed
at `10.8` s, so everything is scaled by `1.08` and the scaled duration sum
`10.8` equals the returned total. -/
theorem timeline_duration_additivity_witness :
    ((Timeline.mk "out.mp3" (54/5)
        [{ index := 0, start := 0, stop := 54/5, duration := 54/5,
           caption := "[p]", speaker := "PETER", emotion := "neutral",
           is_pause := true, is_options := false }]).segments.map
      Timing.duration).sum =
      (Timeline.mk "out.mp3" (54/5)
        [{ index := 0, start := 0, stop := 54/5, duration := 54/5,
           caption := "[p]", speaker := "PETER", emotion := "neutral",
           is_pause := true, is_options := false }]).total_duration :=
  timeline_duration_additivity
    (fun f => if f = "out.mp3" then some (54/5) else none)
    (fun _ => true) true
    [{ index := 0, file := none, caption := "[p]", speaker := "PETER",
       emotion := "neutral", is_pause := true }]
    "out.mp3" 10 5 _ (by decide)

/-! ## Claim C3 -/

/-- C3: drift reconciliation.  When the probed actual duration of the
concatenated file differs from the computed total by more than `0.5` s
(and the computed total is non-zero), every interval is rescaled by the
uniform factor `actual / computed` and the total becomes `actual`; when
the difference is at most `0.5` s, the timings are returned unchanged with
the computed total. -/
theorem timeline_drift_correction (probe : String → Option ℚ)
    (fExists : String → Bool) (segs : List AudioSegment) (out : String)
    (pd od actual : ℚ)
    (hne : segs.isEmpty = false) (hprobe : probe out = some actual) :
    (|actual - (buildTimings probe fExists pd od segs 0).2| > 1/2 →
      (buildTimings probe fExists pd od segs 0).2 ≠ 0 →
      concatenate_quiz_audio_segments probe fExists true segs out pd od =
        .ok { audio_file := out, total_duration := actual,
              segments := (buildTimings probe fExists pd od segs 0).1.map
                (scaleTiming
                  (actual / (buildTimings probe fExists pd od segs 0).2)) }) ∧
    (|actual - (buildTimings probe fExists pd od segs 0).2| ≤ 1/2 →
      concatenate_quiz_audio_segments probe fExists true segs out pd od =
        .ok { audio_file := out,
              total_duration := (buildTimings probe fExists pd od segs 0).2,
              segments := (buildTimings probe fExists pd od segs 0).1 }) := by
  have hred : concatenate_quiz_audio_segments probe fExists true segs out pd od
      = match reconcileTimings (probe out)
          (buildTimings probe fExists pd od segs 0).1
          (buildTimings probe fExists pd od segs 0).2 with
        | .error e => .error e
        | .ok q => .ok { audio_file := out, total_duration := q.2,
                         segments := q.1 } := by
    unfold concatenate_quiz_audio_segments
    rw [hne]
    simp
  have hsome : ∀ (ts : List Timing) (computed : ℚ),
      reconcileTimings (some actual) ts computed =
        if |actual - computed| > 1/2 then
          if computed = 0 then
            .error "ZeroDivisionError: float division by zero"
          else .ok (ts.map (scaleTiming (actual / computed)), actual)
        else .ok (ts, computed) := fun _ _ => rfl
  constructor
  · intro hgt hnz
    rw [hred, hprobe, hsome, if_pos hgt, if_neg hnz]
  · intro hle
    rw [hred, hprobe, hsome, if_neg (not_lt.mpr hle)]

/-- Concrete runs discharging `timeline_drift_correction`: a single pause
placeholder of `10` s gives computed total `10.0`; with actual `10.8` s
(drift `0.8 > 0.5`) the interval is scaled by `1.08` to `[0, 10.8)` and
the total becomes `10.8`; with actual `10.2` s (drift `0.2 ≤ 0.5`) nothing
is scaled and the total stays `10.0`. -/
theorem timeline_drift_correction_witness :
    concatenate_quiz_audio_segments
        (fun f => if f = "out.mp3" then some (54/5) else none)
        (fun _ => true) true
        [{ index := 0, file := none, caption := "[p]", speaker := "PETER",
           emotion := "neutral", is_pause := true }] "out.mp3" 10 5 =
      .ok { audio_file := "out.mp3", total_duration := 54/5,
            segments :=
              [{ index := 0, start := 0, stop := 54/5, duration := 54/5,
                 caption := "[p]", speaker := "PETER", emotion := "neutral",
                 is_pause := true, is_options := false }] } ∧
    concatenate_quiz_audio_segments
        (fun f => if f = "out.mp3" then some (51/5) else none)
        (fun _ => true) true
        [{ index := 0, file := none, caption := "[p]", speaker := "PETER",
           emotion := "neutral", is_pause := true }] "out.mp3" 10 5 =
      .ok { audio_file := "out.mp3", total_duration := 10,
            segments :=
              [{ index := 0, start := 0, stop := 10, duration := 10,
                 caption := "[p]", speaker := "PETER", emotion := "neutral",
                 is_pause := true, is_options := false }] } :=
  ⟨((timeline_drift_correction
      (fun f => if f = "out.mp3" then some (54/5) else none)
      (fun _ => true)
      [{ index := 0, file := none, caption := "[p]", speaker := "PETER",
         emotion := "neutral", is_pause := true }] "out.mp3" 10 5 (54/5)
      (by decide) (by decide)).1 (by decide) (by decide)).trans (by decide),
   ((timeline_drift_correction
      (fun f => if f = "out.mp3" then some (51/5) else none)
      (fun _ => true)
      [{ index := 0, file := none, caption := "[p]", speaker := "PETER",
         emotion := "neutral", is_pause := true }] "out.mp3" 10 5 (51/5)
      (by decide) (by decide)).2 (by decide)).trans (by decide)⟩

/-! ## Claim C4 -/

/-- C4: the per-interval duration entering the timeline before any drift
correction.  A pause placeholder gets exactly `pause_duration`, an options
placeholder exactly `options_duration` (no padding), and a real clip whose
file exists and probes successfully gets its probed raw duration plus
exactly `0.05` s, identically for every clip. -/
theorem segment_duration_padding (probe : String → Option ℚ)
    (fExists : String → Bool) (pd od : ℚ) (seg : AudioSegment) (f : String)
    (raw : ℚ) :
    (seg.is_pause = true →
      segmentDuration probe fExists pd od seg = some pd) ∧
    (seg.is_pause = false → seg.is_options = true →
      segmentDuration probe fExists pd od seg = some od) ∧
    (seg.is_pause = false → seg.is_options = false → seg.file = some f →
      f ≠ "" → fExists f = true → probe f = some raw →
      segmentDuration probe fExists pd od seg = some (raw + 1/20)) := by
  refine ⟨?_, ?_, ?_⟩ <;> intros <;> simp_all [segmentDuration]

/-- Concrete runs discharging `segment_duration_padding`: probed raw
durations `3.00` s and `4.00` s yield interval durations `3.05` s and
`4.05` s; a pause placeholder yields `pause_duration = 2.0` and an options
placeholder `options_duration = 5.0`. -/
theorem segment_duration_padding_witness :
    segmentDuration (fun _ => some 3) (fun _ => true) 2 5
        { index := 0, file := some "a.mp3", caption := "x",
          speaker := "PETER", emotion := "neutral" } = some (61/20) ∧
    segmentDuration (fun _ => some 4) (fun _ => true) 2 5
        { index := 1, file := some "b.mp3", caption := "y",
          speaker := "PETER", emotion := "neutral" } = some (81/20) ∧
    segmentDuration (fun _ => some 3) (fun _ => true) 2 5
        { index := 2, file := none, caption := "[p]", speaker := "PETER",
          emotion := "neutral", is_pause := true } = some 2 ∧
    segmentDuration (fun _ => some 3) (fun _ => true) 2 5
        { index := 3, file := none, caption := "A) x", speaker := "PETER",
          emotion := "neutral", is_options := true } = some 5 :=
  ⟨((segment_duration_padding (fun _ => some 3) (fun _ => true) 2 5
      { index := 0, file := some "a.mp3", caption := "x",
        speaker := "PETER", emotion := "neutral" } "a.mp3" 3).2.2
      rfl rfl rfl (by decide) rfl rfl).trans (by norm_num),
   ((segment_duration_padding (fun _ => some 4) (fun _ => true) 2 5
      { index := 1, file := some "b.mp3", caption := "y",
        speaker := "PETER", emotion := "neutral" } "b.mp3" 4).2.2
      rfl rfl rfl (by decide) rfl rfl).trans (by norm_num),
   (segment_duration_padding (fun _ => some 3) (fun _ => true) 2 5
      { index := 2, file := none, caption := "[p]", speaker := "PETER",
        emotion := "neutral", is_pause := true } "" 0).1 rfl,
   (segment_duration_padding (fun _ => some 3) (fun _ => true) 2 5
      { index := 3, file := none, caption := "A) x", speaker := "PETER",
        emotion := "neutral", is_options := true } "" 0).2.1 rfl rfl⟩

/-! ## Claim C5 -/

/-- C5: in the quiz compositor's caption loop, a pause-placeholder timing
never yields a `drawtext` filter (and contributes nothing to the emitted
filter list), while an options-placeholder timing always yields one whose
enable window is exactly that timing's `[start, end)`. -/
theorem caption_placeholder_policy (t : Timing) :
    (t.is_pause = true → captionSpecFor t = none) ∧
    (t.is_pause = true → ∀ rest : List Timing,
      buildQuizCaptionSpecs (t :: rest) = buildQuizCaptionSpecs rest) ∧
    (t.is_pause = false → t.is_options = true →
      captionSpecFor t =
        some { text := escapeCaption (wrap_caption_text t.caption),
               fontsize := 48, fontcolor := "white",
               boxcolor := "0x0000AA80", enable_start := t.start,
               enable_stop := t.stop }) := by
  refine ⟨?_, ?_, ?_⟩
  · intro hp
    simp [captionSpecFor, hp]
  · intro hp rest
    simp [buildQuizCaptionSpecs, captionSpecFor, hp]
  · intro hp ho
    simp [captionSpecFor, hp, ho]

/-- Concrete runs discharging `caption_placeholder_policy`: a pause timing
emits no caption, and an options timing emits one enabled exactly on its
own interval. -/
theorem caption_placeholder_policy_witness :
    captionSpecFor
        { index := 1, start := 2, stop := 4, duration := 2,
          caption := "[Pause to think...]", speaker := "PETER",
          emotion := "neutral", is_pause := true, is_options := false } =
      none ∧
    buildQuizCaptionSpecs
        [{ index := 1, start := 2, stop := 4, duration := 2,
           caption := "[Pause to think...]", speaker := "PETER",
           emotion := "neutral", is_pause := true, is_options := false }] =
      buildQuizCaptionSpecs [] ∧
    captionSpecFor
        { index := 2, start := 4, stop := 9, duration := 5,
          caption := "A) x", speaker := "PETER", emotion := "neutral",
          is_pause := false, is_options := true } =
      some { text := "A) x", fontsize := 48, fontcolor := "white",
             boxcolor := "0x0000AA80", enable_start := 4,
             enable_stop := 9 } :=
  ⟨(caption_placeholder_policy
      { index := 1, start := 2, stop := 4, duration := 2,
        caption := "[Pause to think...]", speaker := "PETER",
        emotion := "neutral", is_pause := true, is_options := false }).1 rfl,
   (caption_placeholder_policy
      { index := 1, start := 2, stop := 4, duration := 2,
        caption := "[Pause to think...]", speaker := "PETER",
        emotion := "neutral", is_pause := true, is_options := false }).2.1
      rfl [],
   ((caption_placeholder_policy
      { index := 2, start := 4, stop := 9, duration := 5,
        caption := "A) x", speaker := "PETER", emotion := "neutral",
        is_pause := false, is_options := true }).2.2 rfl rfl).trans
      (by decide)⟩

/-! ## Claim C10 -/

/-- C10: quiz pause classification is purely textual.  A transcript segment
whose caption starts with `[` and ends with `]` is emitted as a pause
descriptor — no text-to-speech call, no audio file, `is_pause = true` —
regardless of every other field (including `is_options`); when the caption
is not bracket-delimited, the options classification is decided exactly by
the `is_options` flag. -/
theorem quiz_pause_classification (output_dir : String) (idx : Nat)
    (seg : TranscriptSegment) :
    (isPauseCaption seg.caption = true →
      synthesizeOne output_dir idx seg =
        ({ index := idx, file := none, caption := seg.caption,
           speaker := seg.speaker.getD "PETER",
           emotion := seg.emotion.getD "neutral",
           is_pause := true, is_options := false }, false)) ∧
    (isPauseCaption seg.caption = false → seg.is_options = true →
      synthesizeOne output_dir idx seg =
        ({ index := idx, file := none, caption := seg.caption,
           speaker := seg.speaker.getD "PETER",
           emotion := seg.emotion.getD "neutral",
           is_pause := false, is_options := true }, false)) ∧
    (isPauseCaption seg.caption = false → seg.is_options = false →
      synthesizeOne output_dir idx seg =
        ({ index := idx, file := some (quizSegmentFile output_dir idx),
           caption := seg.caption, speaker := seg.speaker.getD "PETER",
           emotion := seg.emotion.getD "neutral",
           is_pause := false, is_options := false }, true)) := by
  refine ⟨?_, ?_, ?_⟩ <;> intros <;> simp_all [synthesizeOne]

/-- Concrete runs discharging `quiz_pause_classification`: a
bracket-delimited caption is a pause even with `is_options = true`; a
plain caption with `is_options = true` is an options placeholder; a plain
caption without the flag is synthesized to
`quiz_segment_007.mp3`. -/
theorem quiz_pause_classification_witness :
    synthesizeOne "assets/audio/quiz_segments" 3
        { caption := "[Pause to think...]", is_options := true } =
      ({ index := 3, file := none, caption := "[Pause to think...]",
         speaker := "PETER", emotion := "neutral", is_pause := true,
         is_options := false }, false) ∧
    synthesizeOne "assets/audio/quiz_segments" 4
        { caption := "A) 3 B) 4", is_options := true } =
      ({ index := 4, file := none, caption := "A) 3 B) 4",
         speaker := "PETER", emotion := "neutral", is_pause := false,
         is_options := true }, false) ∧
    synthesizeOne "assets/audio/quiz_segments" 7
        { caption := "What is 2 + 2?", speaker := some "PETER",
          emotion := some "excited" } =
      ({ index := 7,
         file := some "assets/audio/quiz_segments/quiz_segment_007.mp3",
         caption := "What is 2 + 2?", speaker := "PETER",
         emotion := "excited", is_pause := false, is_options := false },
       true) :=
  ⟨(quiz_pause_classification "assets/audio/quiz_segments" 3
      { caption := "[Pause to think...]", is_options := true }).1
      (by decide),
   (quiz_pause_classification "assets/audio/quiz_segments" 4
      { caption := "A) 3 B) 4", is_options := true }).2.1
      (by decide) rfl,
   ((quiz_pause_classification "assets/audio/quiz_segments" 7
      { caption := "What is 2 + 2?", speaker := some "PETER",
        emotion := some "excited" }).2.2 (by decide) rfl).trans
      (by decide)⟩

/-! ## Structural lemmas about the quiz overlay construction -/

/-- Every entry of the `peter_images` dict maps its emotion key to that
key's resolved image. -/
theorem mem_peterImagesDict (fExists : String → Bool) (ts : List Timing)
    (p : String × Option String) (hp : p ∈ peterImagesDict fExists ts) :
    p.2 = resolvePeterImage fExists p.1 := by
  unfold peterImagesDict at hp
  obtain ⟨e, -, he⟩ := List.mem_map.mp hp
  rw [← he]

/-- Every emitted overlay carries its emotion key's resolved image and that
key's enable-window expression. -/
theorem mem_quizOverlayEntries (fExists : String → Bool) (ts : List Timing)
    (o : OverlayEntry) (ho : o ∈ quizOverlayEntries fExists ts) :
    resolvePeterImage fExists o.emotion = some o.image ∧
      o.enable = peterEnable ts o.emotion := by
  unfold quizOverlayEntries at ho
  obtain ⟨p, hp, hpo⟩ := List.mem_filterMap.mp ho
  have h2 := mem_peterImagesDict fExists ts p hp
  cases hq : p.2 with
  | none => rw [hq] at hpo; simp at hpo
  | some path =>
    rw [hq] at hpo
    simp only [Option.map_some', Option.some.injEq] at hpo
    rw [← hpo]
    exact ⟨by rw [← h2, hq], rfl⟩

/-- Truth value of a rendered per-emotion enable window: true at `x` iff
some timing with that emotion, not a pause, covers `x` (inclusive, as
`between` is). -/
theorem evalEnable_peterEnable (emotion : String)
    (caption_timings : List Timing) (x : ℚ) :
    evalEnable (peterEnable caption_timings emotion) x = true ↔
      ∃ t ∈ caption_timings, t.emotion = emotion ∧ t.is_pause = false ∧
        t.start ≤ x ∧ x ≤ t.stop := by
  simp only [evalEnable, peterEnable, peterMatching, List.any_eq_true,
    List.mem_map, List.mem_filter, Bool.and_eq_true, beq_iff_eq,
    Bool.not_eq_true', decide_eq_true_eq]
  constructor
  · rintro ⟨p, ⟨t, ⟨ht, hemo, hpause⟩, hp⟩, hle, hge⟩
    subst hp
    exact ⟨t, ht, hemo, hpause, hle, hge⟩
  · rintro ⟨t, ht, hemo, hpause, hle, hge⟩
    exact ⟨(t.start, t.stop), ⟨t, ⟨ht, hemo, hpause⟩, rfl⟩, hle, hge⟩

/-! ## Claim C6 -/

/-- C6 as stated is false on the code: the quiz compositor's matching
filter excludes only pauses, so an options placeholder with a matching
emotion key is part of the character-overlay enable window.  Concretely:
one options interval `[0, 5)` with emotion `neutral` (whose image
resolves), whose overlay enable window is true at `t = 2`, although the
spec's window — which excludes options intervals — is false there. -/
theorem overlay_window_includes_options_cex :
    peterImagesDict (fun _ => true)
        [{ index := 0, start := 0, stop := 5, duration := 5,
           caption := "A) x", speaker := "PETER", emotion := "neutral",
           is_pause := false, is_options := true }] =
      [("neutral", some "assets/characters/peter.png")] ∧
    evalEnable (peterEnable
        [{ index := 0, start := 0, stop := 5, duration := 5,
           caption := "A) x", speaker := "PETER", emotion := "neutral",
           is_pause := false, is_options := true }] "neutral") 2 = true ∧
    ¬ specOverlayWindow "PETER" "neutral"
        [{ index := 0, start := 0, stop := 5, duration := 5,
           caption := "A) x", speaker := "PETER", emotion := "neutral",
           is_pause := false, is_options := true }] 2 := by
  refine ⟨by decide, by decide, ?_⟩
  rintro ⟨t, ht, -, -, -, hopt, -⟩
  simp only [List.mem_singleton] at ht
  rw [ht] at hopt
  exact absurd hopt (by decide)

/-- C6 amended: for every identity key with a resolved image, the quiz
compositor's character-overlay enable window is true exactly on the union
of the (inclusive) `[start, end]` windows of the intervals whose emotion
matches that key and which are not **pause** intervals — options intervals
with a matching emotion are included (the quiz compositor groups by
emotion alone; the speaker is always the fixed quiz host). -/
theorem overlay_enable_window_spec (fExists : String → Bool)
    (caption_timings : List Timing) (o : OverlayEntry)
    (ho : o ∈ quizOverlayEntries fExists caption_timings) (x : ℚ) :
    evalEnable o.enable x = true ↔
      ∃ t ∈ caption_timings, t.emotion = o.emotion ∧ t.is_pause = false ∧
        t.start ≤ x ∧ x ≤ t.stop := by
  rw [(mem_quizOverlayEntries fExists caption_timings o ho).2]
  exact evalEnable_peterEnable o.emotion caption_timings x

/-- Concrete run discharging `overlay_enable_window_spec`: a spoken
interval `[0, 3]` and an options interval `[3, 8]`, both `neutral`; the
emitted `neutral` overlay's window evaluated at `x = 5`. -/
theorem overlay_enable_window_spec_witness :
    evalEnable
        (OverlayEntry.mk "neutral" "assets/characters/peter.png"
          [(0, 3), (3, 8)]).enable 5 = true ↔
      ∃ t ∈ [Timing.mk 0 0 3 3 "hi" "PETER" "neutral" false false,
             Timing.mk 1 3 8 5 "A) x" "PETER" "neutral" false true],
        t.emotion = (OverlayEntry.mk "neutral"
          "assets/characters/peter.png" [(0, 3), (3, 8)]).emotion ∧
        t.is_pause = false ∧ t.start ≤ 5 ∧ 5 ≤ t.stop :=
  overlay_enable_window_spec (fun _ => true)
    [Timing.mk 0 0 3 3 "hi" "PETER" "neutral" false false,
     Timing.mk 1 3 8 5 "A) x" "PETER" "neutral" false true]
    (OverlayEntry.mk "neutral" "assets/characters/peter.png"
      [(0, 3), (3, 8)])
    (by decide) 5

/-! ## Claim C8 -/

/-- C8: overlay asset resolution never fails the run.  The exact
(speaker, emotion) image is used when present; otherwise the speaker's
neutral image; otherwise the key resolves to no overlay at all, in which
case the quiz compositor emits no overlay filter for that key — and the
image inputs are exactly the images of the emitted overlays, so no input
is added either. -/
theorem overlay_fallback_and_omission (fExists : String → Bool)
    (speaker emotion : String) (caption_timings : List Timing) :
    (fExists (get_character_image speaker emotion) = true →
      resolveCharacterImage fExists speaker emotion =
        some (get_character_image speaker emotion)) ∧
    (fExists (get_character_image speaker emotion) = false →
      fExists (get_character_image speaker "neutral") = true →
      resolveCharacterImage fExists speaker emotion =
        some (get_character_image speaker "neutral")) ∧
    (fExists (get_character_image speaker emotion) = false →
      fExists (get_character_image speaker "neutral") = false →
      resolveCharacterImage fExists speaker emotion = none) ∧
    (resolvePeterImage fExists emotion = none →
      ∀ o ∈ quizOverlayEntries fExists caption_timings,
        o.emotion ≠ emotion) ∧
    (quizImageInputs fExists caption_timings =
      (quizOverlayEntries fExists caption_timings).map OverlayEntry.image) := by
  refine ⟨?_, ?_, ?_, ?_, ?_⟩
  · intro h
    simp [resolveCharacterImage, resolveCharacterAsset, h]
  · intro h1 h2
    simp [resolveCharacterImage, resolveCharacterAsset, h1, h2]
  · intro h1 h2
    simp [resolveCharacterImage, resolveCharacterAsset, h1, h2]
  · intro hnone o ho heq
    have := (mem_quizOverlayEntries fExists caption_timings o ho).1
    rw [heq, hnone] at this
    exact absurd this (by simp)
  · unfold quizImageInputs quizOverlayEntries
    induction peterImagesDict fExists caption_timings with
    | nil => rfl
    | cons p l ih =>
      cases hq : p.2 with
      | none => simpa [hq] using ih
      | some path => simpa [hq] using ih

/-- Concrete runs discharging `overlay_fallback_and_omission`: with only
`peter.png` present, `(PETER, neutral)` resolves exactly and
`(PETER, angry)` falls back to neutral; with no assets at all,
`(PETER, angry)` resolves to no overlay; with only `peter_angry.png`
present, the `neutral` key resolves to `none` and the compositor emits an
overlay (and input) only for `angry`. -/
theorem overlay_fallback_and_omission_witness :
    resolveCharacterImage (fun s => s == "assets/characters/peter.png")
        "PETER" "neutral" = some "assets/characters/peter.png" ∧
    resolveCharacterImage (fun s => s == "assets/characters/peter.png")
        "PETER" "angry" = some "assets/characters/peter.png" ∧
    resolveCharacterImage (fun _ => false) "PETER" "angry" = none ∧
    (∀ o ∈ quizOverlayEntries
        (fun s => s == "assets/characters/peter_angry.png")
        [Timing.mk 0 0 3 3 "grr" "PETER" "angry" false false,
         Timing.mk 1 3 5 2 "hm" "PETER" "neutral" false false],
      o.emotion ≠ "neutral") ∧
    quizImageInputs (fun s => s == "assets/characters/peter_angry.png")
        [Timing.mk 0 0 3 3 "grr" "PETER" "angry" false false,
         Timing.mk 1 3 5 2 "hm" "PETER" "neutral" false false] =
      (quizOverlayEntries
        (fun s => s == "assets/characters/peter_angry.png")
        [Timing.mk 0 0 3 3 "grr" "PETER" "angry" false false,
         Timing.mk 1 3 5 2 "hm" "PETER" "neutral" false false]).map
        OverlayEntry.image :=
  ⟨(overlay_fallback_and_omission (fun s => s == "assets/characters/peter.png")
      "PETER" "neutral" []).1 (by decide),
   (overlay_fallback_and_omission (fun s => s == "assets/characters/peter.png")
      "PETER" "angry" []).2.1 (by decide) (by decide),
   (overlay_fallback_and_omission (fun _ => false)
      "PETER" "angry" []).2.2.1 (by decide) (by decide),
   (overlay_fallback_and_omission
      (fun s => s == "assets/characters/peter_angry.png") "PETER" "neutral"
      [Timing.mk 0 0 3 3 "grr" "PETER" "angry" false false,
       Timing.mk 1 3 5 2 "hm" "PETER" "neutral" false false]).2.2.2.1
      (by decide),
   (overlay_fallback_and_omission
      (fun s => s == "assets/characters/peter_angry.png") "PETER" "neutral"
      [Timing.mk 0 0 3 3 "grr" "PETER" "angry" false false,
       Timing.mk 1 3 5 2 "hm" "PETER" "neutral" false false]).2.2.2.2⟩

/-! ## Claim C7 -/

/-- C7 as stated is false on the code: `concatenate_quiz_audio_segments`
never checks for zero successfully-probed clips.  Concretely: one clip
whose file does not exist (so its interval is dropped with a warning and
zero clips are probed) and a failing probe on the concatenated output file
make the builder return a `Timeline` with no intervals and total `0`
instead of surfacing an error. -/
theorem zero_probed_clips_cex :
    concatenate_quiz_audio_segments (fun _ => none) (fun _ => false) true
        [{ index := 0, file := some "s0.mp3", caption := "hi",
           speaker := "PETER", emotion := "neutral" }] "out.mp3" 2 5 =
      .ok { audio_file := "out.mp3", total_duration := 0,
            segments := [] } := by
  decide

/-- C7 amended: when zero clips are successfully probed the builder does
not raise a dedicated error.  If the concatenated-file probe fails, or
reports a duration within `0.5` s of the zero computed total, an empty
`Timeline` with `total_duration = 0` is returned; only when the probe
reports more than `0.5` s does the run abort — accidentally, through the
division by zero in the rescale step.  Dropping a strict subset of the
clips (at least one clip probed, positive configured durations,
non-negative probes) remains a locally handled warning: the run still
returns a `Timeline`. -/
theorem zero_probed_clips_outcomes (probe : String → Option ℚ)
    (fExists : String → Bool) (segs : List AudioSegment) (out : String)
    (pd od : ℚ) (hne : segs.isEmpty = false) :
    ((buildTimings probe fExists pd od segs 0).1 = [] → probe out = none →
      concatenate_quiz_audio_segments probe fExists true segs out pd od =
        .ok { audio_file := out, total_duration := 0, segments := [] }) ∧
    ((buildTimings probe fExists pd od segs 0).1 = [] →
      ∀ a : ℚ, probe out = some a → |a| ≤ 1/2 →
      concatenate_quiz_audio_segments probe fExists true segs out pd od =
        .ok { audio_file := out, total_duration := 0, segments := [] }) ∧
    ((buildTimings probe fExists pd od segs 0).1 = [] →
      ∀ a : ℚ, probe out = some a → |a| > 1/2 →
      concatenate_quiz_audio_segments probe fExists true segs out pd od =
        .error "ZeroDivisionError: float division by zero") ∧
    (0 < pd → 0 < od → (∀ f d, probe f = some d → 0 ≤ d) →
      (buildTimings probe fExists pd od segs 0).1 ≠ [] →
      ∃ tl, concatenate_quiz_audio_segments probe fExists true segs out pd od
        = .ok tl) := by
  have hred : concatenate_quiz_audio_segments probe fExists true segs out pd od
      = match reconcileTimings (probe out)
          (buildTimings probe fExists pd od segs 0).1
          (buildTimings probe fExists pd od segs 0).2 with
        | .error e => .error e
        | .ok q => .ok { audio_file := out, total_duration := q.2,
                         segments := q.1 } := by
    unfold concatenate_quiz_audio_segments
    rw [hne]
    simp
  have htot0 : (buildTimings probe fExists pd od segs 0).1 = [] →
      (buildTimings probe fExists pd od segs 0).2 = 0 := by
    intro hz
    rw [buildTimings_total probe fExists pd od segs 0, hz]
    simp
  have hsome : ∀ (a : ℚ) (ts : List Timing) (computed : ℚ),
      reconcileTimings (some a) ts computed =
        if |a - computed| > 1/2 then
          if computed = 0 then
            .error "ZeroDivisionError: float division by zero"
          else .ok (ts.map (scaleTiming (a / computed)), a)
        else .ok (ts, computed) := fun _ _ _ => rfl
  refine ⟨?_, ?_, ?_, ?_⟩
  · intro hz hp
    rw [hred, hp, hz, htot0 hz]
    rfl
  · intro hz a hp ha
    rw [hred, hp, hz, htot0 hz, hsome]
    rw [if_neg (by rw [sub_zero]; exact not_lt.mpr ha)]
  · intro hz a hp ha
    rw [hred, hp, hz, htot0 hz, hsome]
    rw [if_pos (by rw [sub_zero]; exact ha), if_pos rfl]
  · intro hpd hod hnn hnz
    have hpos : ∀ x ∈ (buildTimings probe fExists pd od segs 0).1,
        0 < x.duration := by
      intro x hx
      obtain ⟨seg, -, hval⟩ :=
        buildTimings_duration_mem probe fExists pd od segs 0 x hx
      unfold segmentDuration at hval
      split at hval
      · rw [Option.some_inj.mp hval] at hpd; exact hpd
      · split at hval
        · rw [Option.some_inj.mp hval] at hod; exact hod
        · split at hval
          · split at hval
            · split at hval
              next raw hraw =>
                have h0 := hnn _ _ hraw
                rw [← Option.some_inj.mp hval]
                positivity
              · exact absurd hval (by simp)
            · exact absurd hval (by simp)
          · exact absurd hval (by simp)
    have hsumpos : 0 < ((buildTimings probe fExists pd od segs 0).1.map
        Timing.duration).sum := by
      apply List.sum_pos
      · intro d hd
        obtain ⟨x, hx, hxd⟩ := List.mem_map.mp hd
        rw [← hxd]
        exact hpos x hx
      · simpa using hnz
    have hc : (buildTimings probe fExists pd od segs 0).2 ≠ 0 := by
      rw [buildTimings_total probe fExists pd od segs 0, zero_add]
      exact ne_of_gt hsumpos
    rw [hred]
    cases hp : probe out with
    | none => exact ⟨_, rfl⟩
    | some a =>
      rw [hsome]
      by_cases hdr : |a - (buildTimings probe fExists pd od segs 0).2| > 1/2
      · rw [if_pos hdr, if_neg hc]
        exact ⟨_, rfl⟩
      · rw [if_neg hdr]
        exact ⟨_, rfl⟩

/-- Concrete runs discharging `zero_probed_clips_outcomes`: with zero
probed clips and the concatenated file probed at `3.0` s the run dies on
the division by zero; with one successfully probed clip (duration
`1 + 0.05`) the run still returns a `Timeline` although nothing else was
probed. -/
theorem zero_probed_clips_outcomes_witness :
    concatenate_quiz_audio_segments
        (fun f => if f = "out.mp3" then some 3 else none)
        (fun _ => false) true
        [{ index := 0, file := some "s0.mp3", caption := "hi",
           speaker := "PETER", emotion := "neutral" }] "out.mp3" 2 5 =
      .error "ZeroDivisionError: float division by zero" ∧
    (∃ tl, concatenate_quiz_audio_segments (fun _ => some 1)
        (fun _ => true) true
        [{ index := 0, file := some "s0.mp3", caption := "hi",
           speaker := "PETER", emotion := "neutral" }] "out.mp3" 2 5 =
      .ok tl) :=
  ⟨(zero_probed_clips_outcomes
      (fun f => if f = "out.mp3" then some 3 else none) (fun _ => false)
      [{ index := 0, file := some "s0.mp3", caption := "hi",
         speaker := "PETER", emotion := "neutral" }] "out.mp3" 2 5
      (by decide)).2.2.1 (by decide) 3 (by decide) (by decide),
   (zero_probed_clips_outcomes (fun _ => some 1) (fun _ => true)
      [{ index := 0, file := some "s0.mp3", caption := "hi",
         speaker := "PETER", emotion := "neutral" }] "out.mp3" 2 5
      (by decide)).2.2.2 (by norm_num) (by norm_num)
      (fun f d h => by
        simp only [Option.some.injEq] at h
        rw [← h]
        norm_num)
      (by decide)⟩

/-! ## Structural lemmas about the caption wrapper -/

/-- `dropTrailingWs` on a non-empty chunk list, by its last element. -/
theorem dropTrailingWs_concat (l2 : List (List Char)) (b : List Char) :
    dropTrailingWs (l2 ++ [b]) =
      if isWsChunk b then l2 else l2 ++ [b] := by
  unfold dropTrailingWs
  rw [List.getLast?_concat, List.dropLast_concat]

/-- Dropping a trailing whitespace chunk can only shorten the joined
line. -/
theorem flatten_dropTrailingWs_le (cur : List (List Char)) :
    (dropTrailingWs cur).flatten.length ≤ (cur.map List.length).sum := by
  rcases List.eq_nil_or_concat cur with rfl | ⟨l2, b, rfl⟩
  · simp [dropTrailingWs]
  · rw [List.concat_eq_append, dropTrailingWs_concat]
    split
    · rw [List.length_flatten, List.map_append, List.sum_append]
      omega
    · rw [List.length_flatten]

/-- `rfindHyphen` returns an index into the list. -/
theorem rfindHyphen_lt_length :
    ∀ (l : List Char) (i : Nat), rfindHyphen l = some i → i < l.length := by
  intro l
  induction l with
  | nil => intro i h; simp [rfindHyphen] at h
  | cons c cs ih =>
    intro i h
    rw [rfindHyphen] at h
    cases hr : rfindHyphen cs with
    | some j =>
      rw [hr] at h
      have hj := ih j hr
      have hji : j + 1 = i := by simpa using h
      simp only [List.length_cons]
      omega
    | none =>
      rw [hr] at h
      by_cases hc : (c == '-') = true
      · rw [if_pos hc] at h
        have h0 : (0 : Nat) = i := by simpa using h
        simp only [List.length_cons]
        omega
      · rw [if_neg hc] at h
        exact absurd h (by simp)

/-- The long-word break never exceeds the available space. -/
theorem longWordEnd_le (c : List Char) (s : Nat) : longWordEnd c s ≤ s := by
  unfold longWordEnd
  cases hr : rfindHyphen (c.take s) with
  | none => exact le_refl s
  | some h =>
    have h1 := rfindHyphen_lt_length _ h hr
    rw [List.length_take] at h1
    show (if (decide (0 < h) && (c.take h).any (fun x => x != '-')) = true
      then h + 1 else s) ≤ s
    by_cases hcond :
        (decide (0 < h) && (c.take h).any (fun x => x != '-')) = true
    · rw [if_pos hcond]
      omega
    · rw [if_neg hcond]

/-- The long-word break consumes at least one character whenever any space
is available. -/
theorem longWordEnd_pos (c : List Char) (s : Nat) (hs : 1 ≤ s) :
    1 ≤ longWordEnd c s := by
  unfold longWordEnd
  cases hr : rfindHyphen (c.take s) with
  | none => exact hs
  | some h =>
    show 1 ≤ (if (decide (0 < h) && (c.take h).any (fun x => x != '-')) = true
      then h + 1 else s)
    by_cases hcond :
        (decide (0 < h) && (c.take h).any (fun x => x != '-')) = true
    · rw [if_pos hcond]
      omega
    · rw [if_neg hcond]
      exact hs

/-- Lines emitted by `emitLine` stay within the width, provided the lines
already in `acc` do and the current line's chunks sum to at most the
width. -/
theorem emitLine_bound (width : Nat) (acc cur : List (List Char))
    (hacc : ∀ l ∈ acc, l.length ≤ width)
    (hcur : (cur.map List.length).sum ≤ width) :
    ∀ l ∈ emitLine acc cur, l.length ≤ width := by
  intro l hl
  simp only [emitLine] at hl
  split at hl
  · exact hacc l hl
  · rcases List.mem_append.mp hl with h | h
    · exact hacc l h
    · simp only [List.mem_singleton] at h
      subst h
      exact le_trans (flatten_dropTrailingWs_le cur) hcur

/-- Every line produced by the `_wrap_chunks` loop has at most `width`
characters (for a positive width), whatever the chunk input. -/
theorem wrapAux_line_bound (width : Nat) (hw : 1 ≤ width) :
    ∀ (fuel : Nat) (chunks acc cur : List (List Char)) (curLen : Nat),
      curLen = (cur.map List.length).sum → curLen ≤ width →
      (∀ l ∈ acc, l.length ≤ width) →
      ∀ l ∈ wrapAux width fuel chunks acc cur curLen, l.length ≤ width := by
  intro fuel
  induction fuel with
  | zero =>
    intro chunks acc cur curLen hsum hle hacc
    rw [wrapAux]
    exact emitLine_bound width acc cur hacc (hsum ▸ hle)
  | succ fuel ih =>
    intro chunks acc cur curLen hsum hle hacc
    cases chunks with
    | nil =>
      rw [wrapAux]
      exact emitLine_bound width acc cur hacc (hsum ▸ hle)
    | cons c cs =>
      rw [wrapAux]
      split
      · exact ih cs acc cur curLen hsum hle hacc
      split
      next hfit =>
        refine ih cs acc (cur ++ [c]) (curLen + c.length) ?_ hfit hacc
        rw [List.map_append, List.sum_append, hsum]
        simp
      split
      next hlong =>
        rw [if_neg (Nat.not_lt.mpr hw)]
        refine ih _ _ [] 0 (by simp) (Nat.zero_le _) ?_
        refine emitLine_bound width acc
          (cur ++ [c.take (longWordEnd c (width - curLen))]) hacc ?_
        have ht := longWordEnd_le c (width - curLen)
        rw [List.map_append, List.sum_append, ← hsum]
        simp only [List.map_cons, List.map_nil, List.sum_cons, List.sum_nil,
          List.length_take]
        omega
      next hnotlong =>
        refine ih (c :: cs) (emitLine acc cur) [] 0 (by simp)
          (Nat.zero_le _) ?_
        exact emitLine_bound width acc cur hacc (hsum ▸ hle)

/-- The strict-decrease measure of one `_wrap_chunks` iteration (see
`wrapMeasure`). -/
def chunksMeasure (chunks : List (List Char)) (curLen : Nat) : Nat :=
  2 * (chunks.map List.length).sum + chunks.length +
    (if curLen = 0 then 0 else 1)

/-- The current-line component of `chunksMeasure` is at most one. -/
theorem chunksMeasure_flag_le (curLen : Nat) :
    (if curLen = 0 then (0 : Nat) else 1) ≤ 1 := by
  split <;> omega

/-- The current-line component of `chunksMeasure` vanishes on a fresh
line. -/
theorem chunksMeasure_flag_zero :
    (if (0 : Nat) = 0 then (0 : Nat) else 1) = 0 := rfl

/-- `emitLine` keeps every already-emitted line. -/
theorem mem_emitLine_left (acc cur : List (List Char)) :
    ∀ l ∈ acc, l ∈ emitLine acc cur := by
  intro l hl
  simp only [emitLine]
  split
  · exact hl
  · exact List.mem_append_left _ hl

/-- Already-emitted lines survive to the wrapper's final result. -/
theorem wrapAux_acc_mono (width : Nat) :
    ∀ (fuel : Nat) (chunks acc cur : List (List Char)) (curLen : Nat),
      ∀ l ∈ acc, l ∈ wrapAux width fuel chunks acc cur curLen := by
  intro fuel
  induction fuel with
  | zero =>
    intro chunks acc cur curLen l hl
    rw [wrapAux]
    exact mem_emitLine_left acc cur l hl
  | succ fuel ih =>
    intro chunks acc cur curLen l hl
    cases chunks with
    | nil =>
      rw [wrapAux]
      exact mem_emitLine_left acc cur l hl
    | cons c cs =>
      rw [wrapAux]
      split
      · exact ih cs acc cur curLen l hl
      split
      · exact ih cs acc (cur ++ [c]) _ l hl
      split
      · exact ih _ _ [] 0 l (mem_emitLine_left _ _ l hl)
      · exact ih _ _ [] 0 l (mem_emitLine_left _ _ l hl)

/-- A member of a chunk list is a contiguous run of its flattening. -/
theorem infix_flatten_of_mem {c : List Char} {l : List (List Char)}
    (h : c ∈ l) : c <:+: l.flatten := by
  obtain ⟨s, t, rfl⟩ := List.append_of_mem h
  refine ⟨s.flatten, t.flatten, ?_⟩
  rw [List.flatten_append, List.flatten_cons]
  simp [List.append_assoc]

/-- Dropping the trailing whitespace chunk keeps every non-whitespace
chunk. -/
theorem mem_dropTrailingWs {c : List Char} (hns : isWsChunk c = false)
    {cur : List (List Char)} (h : c ∈ cur) : c ∈ dropTrailingWs cur := by
  rcases List.eq_nil_or_concat cur with rfl | ⟨l2, b, rfl⟩
  · cases h
  · rw [List.concat_eq_append] at h ⊢
    rw [dropTrailingWs_concat]
    split
    next hws =>
      rcases List.mem_append.mp h with h | h
      · exact h
      · simp only [List.mem_singleton] at h
        rw [h, hws] at hns
        exact absurd hns (by simp)
    · exact h

/-- A non-whitespace chunk of the current line ends up inside an actually
emitted line. -/
theorem emitLine_contains (acc cur : List (List Char)) {c : List Char}
    (hns : isWsChunk c = false) (hc : c ∈ cur) :
    ∃ l ∈ emitLine acc cur, c <:+: l := by
  have hmem := mem_dropTrailingWs hns hc
  refine ⟨(dropTrailingWs cur).flatten, ?_, infix_flatten_of_mem hmem⟩
  simp only [emitLine]
  split
  next hemp =>
    exact absurd (List.isEmpty_iff.mp hemp) (List.ne_nil_of_mem hmem)
  · exact List.mem_append_right _ (List.mem_singleton_self _)

/-- A non-whitespace chunk already on the current line ends up inside some
line of the wrapper's result. -/
theorem wrapAux_cur_preserved (width : Nat) :
    ∀ (fuel : Nat) (chunks acc cur : List (List Char)) (curLen : Nat)
      (c : List Char), c ∈ cur → isWsChunk c = false →
      ∃ l ∈ wrapAux width fuel chunks acc cur curLen, c <:+: l := by
  intro fuel
  induction fuel with
  | zero =>
    intro chunks acc cur curLen c hc hns
    rw [wrapAux]
    exact emitLine_contains acc cur hns hc
  | succ fuel ih =>
    intro chunks acc cur curLen c hc hns
    cases chunks with
    | nil =>
      rw [wrapAux]
      exact emitLine_contains acc cur hns hc
    | cons ch cs =>
      rw [wrapAux]
      split
      · exact ih cs acc cur curLen c hc hns
      split
      · exact ih cs acc (cur ++ [ch]) _ c (List.mem_append_left _ hc) hns
      split
      · obtain ⟨l, hl, hinf⟩ := emitLine_contains acc (cur ++ [ch.take _])
          hns (List.mem_append_left _ hc)
        exact ⟨l, wrapAux_acc_mono width fuel _ _ [] 0 l hl, hinf⟩
      · obtain ⟨l, hl, hinf⟩ := emitLine_contains acc cur hns hc
        exact ⟨l, wrapAux_acc_mono width fuel _ _ [] 0 l hl, hinf⟩

/-- With enough fuel (the loop's termination measure), every pending
non-whitespace chunk of length at most `width` ends up intact inside some
line of the result. -/
theorem wrapAux_word_intact (width : Nat) (hw : 1 ≤ width) :
    ∀ (fuel : Nat) (chunks acc cur : List (List Char)) (curLen : Nat),
      chunksMeasure chunks curLen < fuel → curLen ≤ width →
      ∀ c ∈ chunks, isWsChunk c = false → c.length ≤ width →
        ∃ l ∈ wrapAux width fuel chunks acc cur curLen, c <:+: l := by
  intro fuel
  induction fuel with
  | zero =>
    intro chunks acc cur curLen hm
    exact absurd hm (Nat.not_lt_zero _)
  | succ fuel ih =>
    intro chunks acc cur curLen hm hle c hc hns hcl
    cases chunks with
    | nil => cases hc
    | cons ch cs =>
      rw [wrapAux]
      rcases List.mem_cons.mp hc with rfl | hcs
      · split
        next hdrop =>
          simp only [Bool.and_eq_true] at hdrop
          rw [hns] at hdrop
          exact absurd hdrop.2 (by simp)
        next =>
          split
          next hfit =>
            exact wrapAux_cur_preserved width fuel cs acc (cur ++ [c]) _ c
              (List.mem_append_right _ (List.mem_singleton_self c)) hns
          next hnfit =>
            split
            next hlong => exact absurd hlong (Nat.not_lt.mpr hcl)
            next hnlong =>
              refine ih (c :: cs) (emitLine acc cur) [] 0 ?_ (Nat.zero_le _)
                c (List.mem_cons_self c cs) hns hcl
              have hcur0 : curLen ≠ 0 := by
                intro h0
                rw [h0, Nat.zero_add] at hnfit
                exact hnfit hcl
              simp [chunksMeasure, hcur0] at hm ⊢
              omega
      · split
        next hdrop =>
          refine ih cs acc cur curLen ?_ hle c hcs hns hcl
          simp only [chunksMeasure, List.map_cons, List.sum_cons,
            List.length_cons] at hm ⊢
          omega
        next =>
          split
          next hfit =>
            refine ih cs acc (cur ++ [ch]) (curLen + ch.length) ?_ hfit c
              hcs hns hcl
            by_cases hL : ch.length = 0
            · simp only [chunksMeasure, hL, Nat.add_zero, List.map_cons,
                List.sum_cons, List.length_cons] at hm ⊢
              omega
            · have hL1 : 1 ≤ ch.length := Nat.pos_of_ne_zero hL
              have hf1 := chunksMeasure_flag_le curLen
              have hf2 := chunksMeasure_flag_le (curLen + ch.length)
              simp only [chunksMeasure, List.map_cons, List.sum_cons,
                List.length_cons] at hm ⊢
              omega
          next hnfit =>
            split
            next hlong =>
              rw [if_neg (Nat.not_lt.mpr hw)]
              refine ih ((ch.drop (longWordEnd ch (width - curLen))) :: cs) _
                [] 0 ?_ (Nat.zero_le _) c (List.mem_cons_of_mem _ hcs) hns hcl
              by_cases h0 : curLen = 0
              · subst h0
                have ht := longWordEnd_le ch (width - 0)
                have ht1 : 1 ≤ longWordEnd ch (width - 0) :=
                  longWordEnd_pos ch _ (by omega)
                simp only [chunksMeasure, eq_self_iff_true, if_true,
                  List.map_cons, List.sum_cons, List.length_cons,
                  List.length_drop, chunksMeasure_flag_zero] at hm ⊢
                omega
              · have ht := longWordEnd_le ch (width - curLen)
                have hflag : (if curLen = 0 then (0 : Nat) else 1) = 1 := by
                  simp [h0]
                simp only [chunksMeasure, List.map_cons, List.sum_cons,
                  List.length_cons, List.length_drop, eq_self_iff_true,
                  if_true, chunksMeasure_flag_zero] at hm ⊢
                omega
            next hnlong =>
              refine ih (ch :: cs) (emitLine acc cur) [] 0 ?_
                (Nat.zero_le _) c (List.mem_cons_of_mem _ hcs) hns hcl
              have hcur0 : curLen ≠ 0 := by
                intro h0
                rw [h0, Nat.zero_add] at hnfit
                exact hnfit (Nat.le_of_not_lt hnlong)
              simp [chunksMeasure, hcur0] at hm ⊢
              omega

/-! ## Claim C9 -/

/-- C9 as stated is false on the code: `textwrap.wrap` at default options
(`break_long_words=True`) splits a word longer than the width mid-word.
Concretely, the single 33-character word `a…a` wraps to a 32-character
line plus a 1-character line, and no output line is long enough to contain
the word intact. -/
theorem caption_wrap_splits_long_word_cex :
    textwrapWrap 32 (List.replicate 33 'a') =
      [List.replicate 32 'a', ['a']] ∧
    (∀ l ∈ textwrapWrap 32 (List.replicate 33 'a'),
      l.length < (List.replicate 33 'a').length) := by
  refine ⟨by decide, by decide⟩

/-- C9 amended: every output line of the 32-column caption wrapper has at
most 32 characters, and wrapping breaks only at `textwrap`'s breakpoints:
every breakable chunk — a whitespace-delimited word, further split after
internal hyphens by the default `break_on_hyphens` — of at most 32
characters appears intact, as a contiguous run, in some output line; a
chunk longer than 32 characters is instead split mid-word. -/
theorem caption_wrap_word_aware (text : String) :
    (∀ l ∈ textwrapWrap 32 text.data, l.length ≤ 32) ∧
    (∀ c ∈ toChunks (mungeWhitespace text.data), isWsChunk c = false →
      c.length ≤ 32 → ∃ l ∈ textwrapWrap 32 text.data, c <:+: l) := by
  constructor
  · intro l hl
    exact wrapAux_line_bound 32 (by norm_num) _ _ _ _ _ rfl
      (Nat.zero_le _) (by simp) l hl
  · intro c hc hns hcl
    exact wrapAux_word_intact 32 (by norm_num) _ _ _ _ _
      (by simp only [chunksMeasure, wrapMeasure, eq_self_iff_true, if_true,
            chunksMeasure_flag_zero]
          omega)
      (Nat.zero_le _) c hc hns hcl

/-- Concrete runs discharging `caption_wrap_word_aware`: the single line
of wrapping `"hello world"` is within the width and keeps the word
`world` intact; and in the hyphenated
`"abcdefghijklmnopqrstuvwxyz well-known"` — which wraps to
`["abcdefghijklmnopqrstuvwxyz well-", "known"]`, breaking after the
hyphen — the breakable fragment `known` appears intact in a line. -/
theorem caption_wrap_word_aware_witness :
    ("hello world".data ∈ textwrapWrap 32 "hello world".data ∧
      ("hello world".data).length ≤ 32) ∧
    (∃ l ∈ textwrapWrap 32 "hello world".data, "world".data <:+: l) ∧
    (∃ l ∈ textwrapWrap 32 "abcdefghijklmnopqrstuvwxyz well-known".data,
      "known".data <:+: l) :=
  ⟨⟨by decide, (caption_wrap_word_aware "hello world").1 _ (by decide)⟩,
   (caption_wrap_word_aware "hello world").2 "world".data (by decide)
     (by decide) (by decide),
   (caption_wrap_word_aware "abcdefghijklmnopqrstuvwxyz well-known").2
     "known".data (by decide) (by decide) (by decide)⟩

end HackEmory
